import Mathlib

/-!
Verification of the webmesh repository's natural-language specification
against a shallow embedding of its Go sources.

Each namespace embeds one source file:
* `Storage`      — the key-prefix helpers of the `storage` package
                   (src/unnamed/part_002).
* `Networking`   — the NetworkACL / Route model and `FilterGraph`
                   (src/pkg/meshdb/networking/networking.go).
* `Svcutil`      — `WireGuardPeersFor` and the allowed-IPs recursion
                   (src/unnamed/part_008).
* `Snapshots`    — the snapshot/restore round trip (modelled from the spec;
                   only the snapshotter's test is in the sampled sources).
* `StoreOptions` — `NewRaftOptions` defaults (src/pkg/store/options_raft.go).

Go byte strings are embedded as `List Char` (`Bytes`) where the source works
on `[]byte`, and as `String` where it works on `string`; all keys in play are
ASCII, where the two coincide with Go's byte-wise view.
-/

namespace Storage

/-- Go `[]byte`, for the key helpers of the storage package. -/
abbrev Bytes := List Char

/-- The byte `'/'`. -/
def slash : Char := '/'

/-- Embeds Go `bytes.HasPrefix(s, pre)`. -/
def hasPrefixB (s pre : Bytes) : Bool := pre.isPrefixOf s

/-- Embeds Go `bytes.TrimPrefix(s, pre)`: `s` without the leading `pre`
when present, `s` unchanged otherwise. -/
def trimPrefixB (s pre : Bytes) : Bytes :=
  if pre.isPrefixOf s then s.drop pre.length else s

/-- `RegistryPrefix` of src/unnamed/part_002: `/registry`. -/
def RegistryPrefix : Bytes := "/registry".data

/-- `ConsensusPrefix` of src/unnamed/part_002: `/raft`. -/
def ConsensusPrefix : Bytes := "/raft".data

/-- `Prefix.Contains` of src/unnamed/part_002: `bytes.HasPrefix(key, p)`. -/
def containsKey (p key : Bytes) : Bool := hasPrefixB key p

/-- `Prefix.For` of src/unnamed/part_002:
`bytes.Join([][]byte{p, bytes.TrimPrefix(key, "/")}, []byte("/"))`. -/
def forKey (p key : Bytes) : Bytes := p ++ [slash] ++ trimPrefixB key [slash]

/-- `Prefix.TrimFrom` of src/unnamed/part_002:
`bytes.TrimPrefix(key, append(p, '/'))`. -/
def TrimFrom (p key : Bytes) : Bytes := trimPrefixB key (p ++ [slash])

/-- `ReservedPrefixes` of src/unnamed/part_002. -/
def ReservedPrefixes : List Bytes := [RegistryPrefix, ConsensusPrefix]

/-- `IsReservedPrefix` of src/unnamed/part_002: the loop over
`ReservedPrefixes` returning true at the first containing prefix. -/
def IsReservedPrefix (key : Bytes) : Bool :=
  ReservedPrefixes.any (fun p => containsKey p key)

end Storage



/-- Embeds Go `strings.HasPrefix(s, p)` (byte-wise, via the characters). -/
def strHasPfx (s p : String) : Bool := p.data.isPrefixOf s.data

/-- Lexicographic strict order on character lists: Go's byte-wise
`bytes.Compare(a, b) < 0` on ASCII data. -/
def bytesLtB : List Char → List Char → Bool
  | [], [] => false
  | [], _ :: _ => true
  | _ :: _, [] => false
  | a :: as, b :: bs => if a < b then true else if b < a then false else bytesLtB as bs

/-- Lexicographic strict order on keys. -/
def keyLt (s t : String) : Bool := bytesLtB s.data t.data

namespace MeshKV

/-- Modelled from the spec: `Get(key) → value | NotFound` on the ordered
key/value backend (`MeshStorage`, whose implementations are not among the
sampled sources). The backend is an association list kept in ascending
lexicographic key order; `String` comparison is character-wise, matching
Go's byte order on the ASCII keys in play. `none` embeds the NotFound
error (`storage.ErrKeyNotFound`). -/
def getValue {α : Type} (kv : List (String × α)) (k : String) : Option α :=
  (kv.find? (fun e => e.1 == k)).map (fun e => e.2)

/-- Modelled from the spec: `Put(key, value, ttl)` with ttl = 0 (no expiry);
writes are atomic per key and keep the store ordered. -/
def putValue {α : Type} : List (String × α) → String → α → List (String × α)
  | [], k, v => [(k, v)]
  | e :: rest, k, v =>
    if k = e.1 then (k, v) :: rest
    else if keyLt k e.1 then (k, v) :: e :: rest
    else e :: putValue rest k v

/-- Modelled from the spec: `Delete(key)`. -/
def removeKey {α : Type} (kv : List (String × α)) (k : String) : List (String × α) :=
  kv.filter (fun e => !(e.1 == k))

/-- Modelled from the spec: `IterPrefix(prefix, fn)` visits exactly the
pairs whose key has the given prefix, in ascending key order (the store's
own order). -/
def iterPrefixPairs {α : Type} (kv : List (String × α)) (p : String) : List (String × α) :=
  kv.filter (fun e => strHasPfx e.1 p)

/-- The store invariant: keys strictly ascending in lexicographic order. -/
def sortedKeys {α : Type} (kv : List (String × α)) : Prop :=
  kv.Pairwise (fun a b => keyLt a.1 b.1 = true)

instance {α : Type} (kv : List (String × α)) : Decidable (sortedKeys kv) := by
  unfold sortedKeys
  infer_instance

end MeshKV

namespace Networking

/-- `v1.NetworkACL` as stored under `/registry/network-acls/<name>`; the
fields the claims touch, plus its selector lists. `Action = true` embeds
ACCEPT. -/
structure NetworkACL where
  Name : String
  Priority : Int
  Action : Bool := false
  SrcNodeIds : List String := []
  DstNodeIds : List String := []
  SrcCidrs : List String := []
  DstCidrs : List String := []
deriving DecidableEq, Repr

/-- `NetworkACLsPrefix` of networking.go: where NetworkACLs live. -/
def NetworkACLsPrefix : String := "/registry/network-acls"

/-- The key `fmt.Sprintf("%s/%s", NetworkACLsPrefix, name)`. -/
def aclKey (name : String) : String := NetworkACLsPrefix ++ "/" ++ name

/-- `IsSystemNetworkACL` of networking.go. -/
def IsSystemNetworkACL (name : String) : Bool := name == "bootstrap-nodes"

/-- `GetNetworkACL` of networking.go: a straight `GetValue` of the key;
`none` embeds `ErrACLNotFound` (protojson decoding is the identity in the
model, values being stored as `NetworkACL` records). -/
def GetNetworkACL (kv : List (String × NetworkACL)) (name : String) : Option NetworkACL :=
  MeshKV.getValue kv (aclKey name)

/-- `PutNetworkACL` of networking.go: a system ACL may be written only
while absent; then the record is marshalled and `PutValue`d. -/
def PutNetworkACL (kv : List (String × NetworkACL)) (acl : NetworkACL) :
    Except String (List (String × NetworkACL)) :=
  if IsSystemNetworkACL acl.Name then
    match GetNetworkACL kv acl.Name with
    | some _ => Except.error ("cannot update system network acl " ++ acl.Name)
    | none => Except.ok (MeshKV.putValue kv (aclKey acl.Name) acl)
  else Except.ok (MeshKV.putValue kv (aclKey acl.Name) acl)

/-- `DeleteNetworkACL` of networking.go: system ACLs are never deleted. -/
def DeleteNetworkACL (kv : List (String × NetworkACL)) (name : String) :
    Except String (List (String × NetworkACL)) :=
  if IsSystemNetworkACL name then
    Except.error ("cannot delete system network acl " ++ name)
  else Except.ok (MeshKV.removeKey kv (aclKey name))

/-- `ListNetworkACLs` of networking.go: `IterPrefix` over the ACL prefix,
skipping the bare prefix key and appending each decoded ACL in visit
order. No sorting is performed. -/
def ListNetworkACLs (kv : List (String × NetworkACL)) : List NetworkACL :=
  (MeshKV.iterPrefixPairs kv NetworkACLsPrefix).foldl
    (fun out e => if e.1 = NetworkACLsPrefix then out else out ++ [e.2]) []

/-- The order claimed by the spec: descending priority, ascending name on
ties. -/
def priorityNameSorted (l : List NetworkACL) : Prop :=
  l.Pairwise (fun x y =>
    x.Priority > y.Priority ∨ (x.Priority = y.Priority ∧ keyLt x.Name y.Name = true))

instance (l : List NetworkACL) : Decidable (priorityNameSorted l) := by
  unfold priorityNameSorted
  infer_instance

/-- A two-ACL store: name "a" with priority 0, name "b" with priority 100,
stored in (ascending) key order. -/
def exACLStore : List (String × NetworkACL) :=
  [(aclKey "a", { Name := "a", Priority := 0 }),
   (aclKey "b", { Name := "b", Priority := 100 })]

/-- `peergraph.MeshNode`, the fields `FilterGraph` reads. -/
structure MeshNode where
  Id : String
  PrivateIpv4 : String := ""
  PrivateIpv6 : String := ""
deriving DecidableEq, Repr

/-- `graph.Edge[string]` as held in the adjacency map; `FilterGraph` only
copies edges around, so only the endpoints are modelled. -/
structure GEdge where
  Source : String := ""
  Target : String := ""
deriving DecidableEq, Repr

/-- A destination CIDR of a route. `netip.ParsePrefix` is modelled as
already performed: `isV4` records `prefix.Addr().Is4()` and `text` the
CIDR string; `FilterGraph` returns an error on unparsable CIDRs, a case
outside this model. -/
structure RouteCidr where
  text : String
  isV4 : Bool
deriving DecidableEq, Repr

/-- `v1.Route`: a node advertising destination CIDRs. -/
structure Route where
  RName : String
  RNode : String
  DestinationCidrs : List RouteCidr
deriving DecidableEq, Repr

/-- `v1.NetworkAction` as synthesized by `FilterGraph` for a route check. -/
structure NetworkAction where
  SrcNode : String
  SrcCidr : String
  DstNode : String
  DstCidr : String
deriving DecidableEq, Repr

/-- `AdjacencyMap` of networking.go: node id → (node id → edge). Go maps
become association lists; the claims only concern key membership. -/
abbrev AdjacencyMap : Type := List (String × List (String × GEdge))

/-- The row of an adjacency map for a node id (Go map indexing; a missing
key yields the empty map). -/
def rowOf (m : AdjacencyMap) (id : String) : List (String × GEdge) :=
  match m.find? (fun e => e.1 == id) with
  | some e => e.2
  | none => []

/-- `GetRoutesByNode` of networking.go: the stored routes whose `Node`
field is the given name, in `ListRoutes` order. -/
def GetRoutesByNode (routes : List Route) (nodeName : String) : List Route :=
  routes.filter (fun r => r.RNode == nodeName)

/-- The `v1.NetworkAction` built by `FilterGraph` for one destination
CIDR of a route of `dstId`: the source CIDR is thisNode's private IPv4
or IPv6 address according to the address family of the destination. -/
def mkRouteAction (thisNode : MeshNode) (dstId : String) (c : RouteCidr) : NetworkAction :=
  if c.isV4 then
    { SrcNode := thisNode.Id, SrcCidr := thisNode.PrivateIpv4
      DstNode := dstId, DstCidr := c.text }
  else
    { SrcNode := thisNode.Id, SrcCidr := thisNode.PrivateIpv6
      DstNode := dstId, DstCidr := c.text }

/-- True when some destination CIDR of some route advertised by `dstId`
is rejected by `accept` (the expanded ACLs' `Accept`, a parameter of the
embedding: the ACL evaluation lives outside the sampled sources). -/
def anyRouteDenied (accept : NetworkAction → Bool) (routes : List Route)
    (thisNode : MeshNode) (dstId : String) : Bool :=
  (GetRoutesByNode routes dstId).any fun r =>
    r.DestinationCidrs.any fun c => !(accept (mkRouteAction thisNode dstId c))

/-- Go `delete(row, k)` on the map embedded as a list. -/
def eraseKey (row : List (String × GEdge)) (k : String) : List (String × GEdge) :=
  row.filter (fun e => !(e.1 == k))

/-- One iteration of `FilterGraph`'s first loop (`Nodes:`): a candidate
node other than thisNode is deleted from thisNode's row when the nodes may
not communicate or any of its advertised route CIDRs is denied. -/
def filterStep (accept : NetworkAction → Bool) (allowComm : MeshNode → MeshNode → Bool)
    (getter : String → MeshNode) (routes : List Route) (thisNode : MeshNode)
    (row : List (String × GEdge)) (nodeID : String) : List (String × GEdge) :=
  if nodeID = thisNode.Id then row
  else if !(allowComm thisNode (getter nodeID)) then eraseKey row (getter nodeID).Id
  else if anyRouteDenied accept routes thisNode (getter nodeID).Id then
    eraseKey row (getter nodeID).Id
  else row

/-- ThisNode's row of the filtered adjacency map after `FilterGraph`'s
first loop. The second loop only re-inserts entries already present in
this row (the row aliases `fullMap[thisNode.Id]`, so the first loop's
deletions are visible to it), leaving it unchanged. -/
def filterGraphRow (accept : NetworkAction → Bool) (allowComm : MeshNode → MeshNode → Bool)
    (getter : String → MeshNode) (routes : List Route) (fullMap : AdjacencyMap)
    (thisNode : MeshNode) : List (String × GEdge) :=
  (fullMap.map (fun e => e.1)).foldl
    (filterStep accept allowComm getter routes thisNode) (rowOf fullMap thisNode.Id)

/-- Whether `FilterGraph`'s first loop keeps a candidate node. -/
def nodeKept (accept : NetworkAction → Bool) (allowComm : MeshNode → MeshNode → Bool)
    (getter : String → MeshNode) (routes : List Route) (thisNode : MeshNode)
    (nodeID : String) : Bool :=
  allowComm thisNode (getter nodeID)
    && !(anyRouteDenied accept routes thisNode (getter nodeID).Id)

/-- A kept node's row after `FilterGraph`'s second loop (`Peers:`): of the
full map's row, each edge back to thisNode is kept, and any other edge is
kept exactly when its target communicates with thisNode and has no denied
route CIDR. -/
def filterPeerRow (accept : NetworkAction → Bool) (allowComm : MeshNode → MeshNode → Bool)
    (getter : String → MeshNode) (routes : List Route) (fullMap : AdjacencyMap)
    (thisNode : MeshNode) (gid : String) : List (String × GEdge) :=
  (rowOf fullMap gid).filter fun e =>
    e.1 == thisNode.Id
      || (allowComm thisNode (getter e.1)
            && !(anyRouteDenied accept routes thisNode e.1))

/-- `FilterGraph` of networking.go, assembled: thisNode's (aliased,
pruned) row plus a row for every kept candidate node. -/
def FilterGraph (accept : NetworkAction → Bool) (allowComm : MeshNode → MeshNode → Bool)
    (getter : String → MeshNode) (routes : List Route) (fullMap : AdjacencyMap)
    (thisNode : MeshNode) : AdjacencyMap :=
  (thisNode.Id, filterGraphRow accept allowComm getter routes fullMap thisNode)
    :: ((fullMap.map (fun e => e.1)).filter
          (fun nodeID => !(nodeID == thisNode.Id)
            && nodeKept accept allowComm getter routes thisNode nodeID)).map
        (fun nodeID =>
          ((getter nodeID).Id,
            filterPeerRow accept allowComm getter routes fullMap thisNode (getter nodeID).Id))

/-- The edge A→B of the two-node example graph. -/
def exEdge : GEdge := { Source := "A", Target := "B" }

/-- A two-node full adjacency map A—B. -/
def exFullMap : AdjacencyMap :=
  [("A", [("B", exEdge)]), ("B", [("A", { Source := "B", Target := "A" })])]

/-- ThisNode of the example: A. -/
def exThisNode : MeshNode :=
  { Id := "A", PrivateIpv4 := "172.16.0.1/32", PrivateIpv6 := "fd00::1/128" }

/-- The node getter of the example graph. -/
def exGetter : String → MeshNode := fun id =>
  if id = "A" then exThisNode
  else { Id := id, PrivateIpv4 := "172.16.0.2/32", PrivateIpv6 := "fd00::2/128" }

/-- One route advertised by B. -/
def exRoutes : List Route :=
  [{ RName := "b-route", RNode := "B"
     DestinationCidrs := [{ text := "10.0.0.0/8", isV4 := true }] }]

/-- ACLs that deny every synthesized route action. -/
def denyAll : NetworkAction → Bool := fun _ => false

/-- Node-to-node communication always allowed. -/
def allowAll : MeshNode → MeshNode → Bool := fun _ _ => true

end Networking


namespace Svcutil

/-- `peers.Node` of the older source vintage in src/unnamed/part_008: the
fields read by `WireGuardPeersFor` and the allowed-IPs recursion.
`PrivateIPv4 = some s` embeds a `netip.Prefix` with `IsValid()` true and
`String()` equal to `s`; `none` embeds the invalid (zero) prefix. -/
structure Node where
  ID : String
  PrivateIPv4 : Option String := none
  NetworkIPv6 : Option String := none
  PrimaryEndpoint : String := ""
  WireGuardEndpoints : List String := []
deriving DecidableEq, Repr

/-- `networking.AdjacencyMap` as consumed here: these functions only read
map keys (`for target := range targets`, membership tests), never the edge
values, so a row is its key list. -/
abbrev AdjMap : Type := List (String × List String)

/-- Go map indexing `adjacencyMap[id]`; a missing key is the empty map. -/
def row (adj : AdjMap) (id : String) : List String :=
  match adj.find? (fun e => e.1 == id) with
  | some e => e.2
  | none => []

/-- The address strings a node contributes: `PrivateIPv4.String()` then
`NetworkIPv6.String()`, each only when the prefix `IsValid()`. -/
def addrStrings (n : Node) : List String :=
  n.PrivateIPv4.toList ++ n.NetworkIPv6.toList

/-- `visited[id] = struct{}{}`: set insertion. -/
def insertVisited (id : String) (visited : List String) : List String :=
  if id ∈ visited then visited else id :: visited

/-- The `for target := range targets` loop body of `recurseEdgeAllowedIPs`
(src/unnamed/part_008 lines 143-168), abstracted over the recursive call
`recur`: skip thisPeer, thisPeer's direct adjacents and already-visited
targets; otherwise record the target's addresses, mark it visited and
recurse. Returns the collected IPs and the updated visited set. -/
def edgeLoop (recur : String → List String → List String × List String)
    (vertex : String → Node) (thisPeer : String) (dadj : List String) :
    List String → List String → List String × List String
  | [], visited => ([], visited)
  | t :: ts, visited =>
    if t = thisPeer then edgeLoop recur vertex thisPeer dadj ts visited
    else if t ∈ dadj then edgeLoop recur vertex thisPeer dadj ts visited
    else if t ∈ visited then edgeLoop recur vertex thisPeer dadj ts visited
    else
      (addrStrings (vertex t) ++ (recur t (insertVisited t visited)).1
         ++ (edgeLoop recur vertex thisPeer dadj ts (recur t (insertVisited t visited)).2).1,
       (edgeLoop recur vertex thisPeer dadj ts (recur t (insertVisited t visited)).2).2)

/-- `recurseEdgeAllowedIPs` of src/unnamed/part_008, with a fuel
parameter standing in for Go's implicit termination (the visited set can
only grow inside a finite node universe; any fuel at least that size
computes the full traversal). `graph.Vertex` is the total map `vertex`
(the Go error path for a missing vertex aborts the whole computation and
is outside the claims). -/
def edgeGo (vertex : String → Node) (adj : AdjMap) (thisPeer : String) :
    Nat → String → List String → List String × List String
  | 0, _, visited => ([], visited)
  | fuel + 1, nodeID, visited =>
    edgeLoop (edgeGo vertex adj thisPeer fuel) vertex thisPeer (row adj thisPeer)
      (row adj nodeID) (insertVisited nodeID visited)

/-- The top-level `recurseEdgeAllowedIPs(graph, adjacencyMap, thisPeer,
node, nil)` call: empty initial visited set. -/
def recurseEdgeAllowedIPs (fuel : Nat) (vertex : String → Node) (adj : AdjMap)
    (thisPeer : String) (node : Node) : List String × List String :=
  edgeGo vertex adj thisPeer fuel node.ID []

/-- The dedup-append loop of `recurseAllowedIPs`: each edge IP not already
contained is appended. -/
def appendDedup (base l : List String) : List String :=
  l.foldl (fun acc ip => if ip ∈ acc then acc else acc ++ [ip]) base

/-- `recurseAllowedIPs` of src/unnamed/part_008: the neighbor's own valid
addresses, then the edge-recursion IPs deduplicated. -/
def recurseAllowedIPs (fuel : Nat) (vertex : String → Node) (adj : AdjMap)
    (thisPeer : String) (node : Node) : List String :=
  appendDedup (addrStrings node) (recurseEdgeAllowedIPs fuel vertex adj thisPeer node).1

/-- Every node id that occurs as a target in some row of the map. -/
def allTargets (adj : AdjMap) : List String :=
  (adj.map (fun e => e.2)).flatten

/-- The first loop of the preferred-endpoint selection of
`WireGuardPeersFor` (src/unnamed/part_008 lines 64-72): when the primary
endpoint is nonempty, the first WireGuard endpoint of which it is a string
prefix (`strings.HasPrefix`), the zero value `""` when none matches or the
primary endpoint is empty. -/
def primaryMatch (node : Node) : String :=
  if node.PrimaryEndpoint ≠ "" then
    match node.WireGuardEndpoints.find? (fun e => strHasPfx e node.PrimaryEndpoint) with
    | some e => e
    | none => ""
  else ""

/-- The preferred-endpoint selection of `WireGuardPeersFor`
(src/unnamed/part_008 lines 63-75): the first-prefix match, or the first
endpoint when the match is still empty and any endpoint exists. -/
def preferredEndpoint (node : Node) : String :=
  if primaryMatch node = "" ∧ node.WireGuardEndpoints ≠ [] then
    node.WireGuardEndpoints.headD ""
  else primaryMatch node

/-- The characters before the last `':'` of an endpoint, when one exists. -/
def lastColonSplit : List Char → Option (List Char)
  | [] => none
  | c :: cs =>
    match lastColonSplit cs with
    | some rest => some (c :: rest)
    | none => if c = ':' then some [] else none

/-- The host part of an `ip:port` endpoint: everything before the last
`':'`, or the whole string when it has none. -/
def endpointHost (e : String) : String :=
  match lastColonSplit e.data with
  | some h => String.mk h
  | none => e

/-- The selection as the claim words it: the first endpoint whose host
equals the primary endpoint; else the first endpoint; else empty. -/
def preferredEndpointSpec (node : Node) : String :=
  match node.WireGuardEndpoints.find? (fun e => endpointHost e == node.PrimaryEndpoint) with
  | some e => e
  | none => node.WireGuardEndpoints.headD ""

/-- The linear three-node mesh `N1—N2—N3` of the spec's testable property
6, with bidirectional adjacency and all ACLs permissive (the adjacency map
is the full map). Unknown ids carry no addresses. -/
def linVertex : String → Node := fun id =>
  if id = "N1" then
    { ID := "N1", PrivateIPv4 := some "172.16.0.1/32", NetworkIPv6 := some "fd00::1/128" }
  else if id = "N2" then
    { ID := "N2", PrivateIPv4 := some "172.16.0.2/32", NetworkIPv6 := some "fd00::2/128" }
  else if id = "N3" then
    { ID := "N3", PrivateIPv4 := some "172.16.0.3/32", NetworkIPv6 := some "fd00::3/128" }
  else { ID := id }

/-- Adjacency of the linear mesh: edges N1–N2 and N2–N3 only. -/
def linAdj : AdjMap := [("N1", ["N2"]), ("N2", ["N1", "N3"]), ("N3", ["N2"])]

/-- The routes advertised in the example mesh: N3 advertises one CIDR.
Present to state C3; the allowed-IPs recursion never reads routes. -/
def linRouteCidrs : String → List String := fun id =>
  if id = "N3" then ["10.10.0.0/16"] else []

/-- A node exposing the divergence between prefix matching and host
equality: no endpoint's host equals the primary endpoint `1.2.3.4`, yet
`1.2.3.4` is a string prefix of the second endpoint's host `1.2.3.40`. -/
def epNode : Node :=
  { ID := "E", PrimaryEndpoint := "1.2.3.4"
    WireGuardEndpoints := ["9.9.9.9:1", "1.2.3.40:2"] }

end Svcutil

namespace Snapshots

/-- Whether a key lies under the registry prefix. -/
def underRegistry (k : String) : Bool := strHasPfx k "/registry"

/-- Modelled from the spec: the snapshot payload is the lexicographically
ordered sequence of (key, value) records under `/registry/…` (§4.B/4.C);
the snapshotter implementation is not among the sampled sources, only its
test. The backend being ordered, filtering preserves the order; the framed
header `{format-version, term, index}` round-trips identically and is
elided. -/
def snapshotKV (db : List (String × String)) : List (String × String) :=
  db.filter (fun e => underRegistry e.1)

/-- Modelled from the spec: `Restore` applies each record of the payload
to the backend. -/
def restoreKV (snap db : List (String × String)) : List (String × String) :=
  snap.foldl (fun d e => MeshKV.putValue d e.1 e.2) db

/-- Modelled from the spec (§4.E): a write through the storage facade;
the reserved-prefix guard rejects keys under `/raft` with
InvalidArgument. -/
def facadePut (db : List (String × String)) (k v : String) :
    Except String (List (String × String)) :=
  if strHasPfx k "/raft" then Except.error "InvalidArgument: reserved prefix write"
  else Except.ok (MeshKV.putValue db k v)

/-- A state produced by one facade write of a registry key. -/
def snapState1 : List (String × String) := MeshKV.putValue [] "/registry/foo" "bar"

/-- A state produced by a further facade write of a non-registry,
non-reserved key. -/
def snapState2 : List (String × String) := MeshKV.putValue snapState1 "/zzz" "x"

end Snapshots

namespace StoreOptions

/-- Go `time.Duration`: nanoseconds. -/
abbrev Duration := Int

/-- `time.Second`. -/
def timeSecond : Duration := 1000000000

/-- `time.Minute`. -/
def timeMinute : Duration := 60 * timeSecond

/-- `RaftOptions` of src/pkg/store/options_raft.go; unset fields take Go
zero values. -/
structure RaftOptions where
  ListenAddress : String := ""
  DataDir : String := ""
  InMemory : Bool := false
  ConnectionPoolCount : Int := 0
  ConnectionTimeout : Duration := 0
  HeartbeatTimeout : Duration := 0
  ElectionTimeout : Duration := 0
  ApplyTimeout : Duration := 0
  CommitTimeout : Duration := 0
  MaxAppendEntries : Int := 0
  LeaderLeaseTimeout : Duration := 0
  SnapshotInterval : Duration := 0
  SnapshotThreshold : Nat := 0
  SnapshotRetention : Nat := 0
  ObserverChanBuffer : Int := 0
  LogLevel : String := ""
  PreferIPv6 : Bool := false
  LeaveOnShutdown : Bool := false
  LogFormat : String := ""
  StartupTimeout : Duration := 0
  ShutdownTimeout : Duration := 0
deriving DecidableEq, Repr

/-- `NewRaftOptions` of src/pkg/store/options_raft.go, field for field. -/
def NewRaftOptions : RaftOptions :=
  { ListenAddress := ":9443"
    DataDir := "/var/lib/webmesh/store"
    ConnectionTimeout := 3 * timeSecond
    HeartbeatTimeout := 3 * timeSecond
    ElectionTimeout := 3 * timeSecond
    ApplyTimeout := 10 * timeSecond
    CommitTimeout := 15 * timeSecond
    LeaderLeaseTimeout := 3 * timeSecond
    SnapshotInterval := 5 * timeMinute
    SnapshotThreshold := 50
    MaxAppendEntries := 16
    SnapshotRetention := 3
    ObserverChanBuffer := 100
    LogFormat := "protobuf+snappy"
    LogLevel := "info"
    StartupTimeout := timeMinute
    ShutdownTimeout := timeMinute }

end StoreOptions

/-! ## Theorems -/

theorem bytesLtB_irrefl (l : List Char) : bytesLtB l l = false := by
  induction l with
  | nil => rfl
  | cons c l ih => simp [bytesLtB, lt_irrefl, ih]

theorem bytesLtB_asymm (a b : List Char) (h : bytesLtB a b = true) : bytesLtB b a = false := by
  induction a generalizing b with
  | nil =>
    cases b with
    | nil => rfl
    | cons c bs => rfl
  | cons x xs ih =>
    cases b with
    | nil => exact absurd h (by simp [bytesLtB])
    | cons y ys =>
      by_cases hxy : x < y
      · have hyx : ¬ y < x := asymm hxy
        simp [bytesLtB, hxy, hyx]
      · by_cases hyx : y < x
        · simp [bytesLtB, hxy, hyx] at h
        · simp [bytesLtB, hxy, hyx] at h ⊢
          exact ih ys h

/-- Cancelling a common prefix on the left of the byte order. -/
theorem bytesLtB_append_left (p a b : List Char) :
    bytesLtB (p ++ a) (p ++ b) = bytesLtB a b := by
  induction p with
  | nil => rfl
  | cons c p ih => simp [bytesLtB, lt_irrefl, ih]

/-- Cancelling a common prefix on the left of the key order. -/
theorem keyLt_append_left (p a b : String) :
    keyLt (p ++ a) (p ++ b) = keyLt a b := by
  simp [keyLt, String.data_append, bytesLtB_append_left]

namespace Storage

/-- C9. `IsReservedPrefix key` is true exactly when `key` begins with
`/registry` or begins with `/raft`; in particular every key under
`/registry` is reserved, not only keys under `/raft`. -/
theorem isReservedPrefix_iff (key : Bytes) :
    IsReservedPrefix key = true ↔
      ("/registry".data <+: key ∨ "/raft".data <+: key) := by
  simp [IsReservedPrefix, ReservedPrefixes, containsKey, hasPrefixB,
    RegistryPrefix, ConsensusPrefix, List.isPrefixOf_iff_prefix]

/-- C10. For every prefix `p` and key `k`, `p.TrimFrom (p.For k)` is `k`
with a single leading slash removed when `k` begins with one, and `k`
unchanged otherwise. -/
theorem trimFrom_forKey (p k : Bytes) :
    TrimFrom p (forKey p k) =
      (if k.head? = some slash then k.drop 1 else k) := by
  have key : ∀ t : Bytes, trimPrefixB ((p ++ [slash]) ++ t) (p ++ [slash]) = t := by
    intro t
    have hpre : (p ++ [slash]).isPrefixOf ((p ++ [slash]) ++ t) = true :=
      List.isPrefixOf_iff_prefix.mpr (List.prefix_append _ _)
    simp [trimPrefixB, hpre]
  have hdrop : TrimFrom p (forKey p k) = trimPrefixB k [slash] := key _
  rw [hdrop]
  cases k with
  | nil => simp [trimPrefixB, List.isPrefixOf]
  | cons c ks =>
    by_cases hc : slash = c
    · subst hc
      simp [trimPrefixB, List.isPrefixOf]
    · have hc2 : ¬ ((c :: ks).head? = some slash) := by
        simp [List.head?]
        intro h
        exact hc h.symm
      simp only [trimPrefixB, List.isPrefixOf, if_neg, hc2]
      have : (slash == c) = false := by
        simp [hc]
      simp [this]

end Storage

namespace Networking

/-- The accumulator form of the `ListNetworkACLs` fold. -/
theorem listACLs_foldl_eq (pfx : String) (l : List (String × NetworkACL)) (out : List NetworkACL) :
    l.foldl (fun acc e => if e.1 = pfx then acc else acc ++ [e.2]) out
      = out ++ (l.filter (fun e => !(e.1 == pfx))).map (fun e => e.2) := by
  induction l generalizing out with
  | nil => simp
  | cons e l ih =>
    by_cases h : e.1 = pfx
    · simp [h, ih]
    · simp [h, ih]

/-- C1, as written, is false: `ListNetworkACLs` returns the stored order
(ascending key), which for this store is not descending-priority order. -/
theorem listNetworkACLs_not_priority_sorted :
    MeshKV.sortedKeys exACLStore ∧
      ¬ priorityNameSorted (ListNetworkACLs exACLStore) := by
  decide

/-- C1 (amended). `ListNetworkACLs` returns the ACLs in ascending key
order, hence ascending name order when keys encode names as
`PutNetworkACL` writes them; it performs no sorting by priority. -/
theorem listNetworkACLs_ascending_names (kv : List (String × NetworkACL))
    (hsorted : MeshKV.sortedKeys kv)
    (hkeys : ∀ e ∈ kv, strHasPfx e.1 NetworkACLsPrefix = true → e.1 = aclKey e.2.Name) :
    (ListNetworkACLs kv).Pairwise (fun x y => keyLt x.Name y.Name = true) := by
  rw [ListNetworkACLs, listACLs_foldl_eq]
  rw [List.nil_append, List.pairwise_map]
  have hp2 : (MeshKV.iterPrefixPairs kv NetworkACLsPrefix).Pairwise
      (fun a b => keyLt a.1 b.1 = true) :=
    List.Pairwise.filter _ hsorted
  have hp3 : ((MeshKV.iterPrefixPairs kv NetworkACLsPrefix).filter
      (fun e => !(e.1 == NetworkACLsPrefix))).Pairwise (fun a b => keyLt a.1 b.1 = true) :=
    List.Pairwise.filter _ hp2
  refine List.Pairwise.imp_of_mem ?_ hp3
  intro a b ha hb hab
  have hamem : a ∈ kv := List.mem_of_mem_filter (List.mem_of_mem_filter ha)
  have hbmem : b ∈ kv := List.mem_of_mem_filter (List.mem_of_mem_filter hb)
  have hapfx : strHasPfx a.1 NetworkACLsPrefix = true := by
    have := List.mem_filter.mp (List.mem_of_mem_filter ha)
    exact this.2
  have hbpfx : strHasPfx b.1 NetworkACLsPrefix = true := by
    have := List.mem_filter.mp (List.mem_of_mem_filter hb)
    exact this.2
  have hka := hkeys a hamem hapfx
  have hkb := hkeys b hbmem hbpfx
  rw [hka, hkb] at hab
  have h1 : keyLt ((NetworkACLsPrefix ++ "/") ++ a.2.Name)
      ((NetworkACLsPrefix ++ "/") ++ b.2.Name) = true := by
    have hassoc : ∀ n : String, (NetworkACLsPrefix ++ "/") ++ n = aclKey n := fun n =>
      (String.append_assoc _ _ _)
    rw [hassoc, hassoc]
    exact hab
  rw [keyLt_append_left] at h1
  exact h1

/-- Witness for `listNetworkACLs_ascending_names` at the two-ACL store. -/
theorem listNetworkACLs_ascending_names_witness :
    (ListNetworkACLs exACLStore).Pairwise (fun x y => keyLt x.Name y.Name = true) :=
  listNetworkACLs_ascending_names exACLStore (by decide) (by decide)

/-- C6. The system ACL `bootstrap-nodes` may be created while absent;
once present, `PutNetworkACL` fails without writing; `DeleteNetworkACL`
always fails on it without deleting. -/
theorem systemACL_create_once_never_delete (kv : List (String × NetworkACL))
    (acl : NetworkACL) (hname : acl.Name = "bootstrap-nodes") :
    (GetNetworkACL kv "bootstrap-nodes" = none →
        PutNetworkACL kv acl = Except.ok (MeshKV.putValue kv (aclKey acl.Name) acl)) ∧
    (∀ a0, GetNetworkACL kv "bootstrap-nodes" = some a0 →
        ∃ msg, PutNetworkACL kv acl = Except.error msg) ∧
    (∃ msg, DeleteNetworkACL kv "bootstrap-nodes" = Except.error msg) := by
  refine ⟨?_, ?_, ?_⟩
  · intro hnone
    simp [PutNetworkACL, IsSystemNetworkACL, hname, hnone]
  · intro a0 hsome
    refine ⟨"cannot update system network acl " ++ acl.Name, ?_⟩
    simp [PutNetworkACL, IsSystemNetworkACL, hname, hsome]
  · refine ⟨"cannot delete system network acl " ++ "bootstrap-nodes", ?_⟩
    simp [DeleteNetworkACL, IsSystemNetworkACL]

/-- Witness for `systemACL_create_once_never_delete` at the empty store. -/
theorem systemACL_create_once_never_delete_witness :
    PutNetworkACL [] { Name := "bootstrap-nodes", Priority := 0 }
        = Except.ok (MeshKV.putValue [] (aclKey "bootstrap-nodes")
            { Name := "bootstrap-nodes", Priority := 0 }) ∧
    (∃ msg, DeleteNetworkACL [] "bootstrap-nodes" = Except.error msg) := by
  have h := systemACL_create_once_never_delete []
      { Name := "bootstrap-nodes", Priority := 0 } (by decide)
  exact ⟨h.1 (by decide), h.2.2⟩

end Networking

namespace Snapshots

/-- Inserting a key greater than every key of a sorted store appends it. -/
theorem putValue_append_last {α : Type} (d : List (String × α)) (k : String) (v : α)
    (h : ∀ e ∈ d, keyLt e.1 k = true) :
    MeshKV.putValue d k v = d ++ [(k, v)] := by
  induction d with
  | nil => rfl
  | cons e d ih =>
    have he : keyLt e.1 k = true := h e (by simp)
    have hne : ¬ (k = e.1) := by
      intro hk
      rw [hk, keyLt, bytesLtB_irrefl] at he
      exact Bool.false_ne_true he
    have hnlt : keyLt k e.1 = false := by
      rw [keyLt]
      exact bytesLtB_asymm _ _ he
    simp only [MeshKV.putValue, hne, hnlt, if_neg, if_false, Bool.false_eq_true,
      List.cons_append]
    rw [ih (fun x hx => h x (List.mem_cons_of_mem _ hx))]

/-- Replaying an ascending record list into a store it extends appends it. -/
theorem foldl_putValue_sorted (l : List (String × String)) (acc : List (String × String))
    (h : (acc ++ l).Pairwise (fun a b => keyLt a.1 b.1 = true)) :
    l.foldl (fun d e => MeshKV.putValue d e.1 e.2) acc = acc ++ l := by
  induction l generalizing acc with
  | nil => simp
  | cons e l ih =>
    have hcross : ∀ x ∈ acc, keyLt x.1 e.1 = true := by
      intro x hx
      exact (List.pairwise_append.mp h).2.2 x hx e (by simp)
    have hput : MeshKV.putValue acc e.1 e.2 = acc ++ [e] := by
      have h2 := putValue_append_last acc e.1 e.2 hcross
      simpa using h2
    have hperm : (acc ++ [e]) ++ l = acc ++ e :: l := by simp
    have h3 : ((acc ++ [e]) ++ l).Pairwise (fun a b => keyLt a.1 b.1 = true) := by
      rw [hperm]
      exact h
    rw [List.foldl_cons, hput, ih (acc ++ [e]) h3, hperm]

/-- C7, as written, is false: a state holding a key outside `/registry`
(written through the facade, which only guards `/raft`) does not round
trip byte-equal, the snapshot covering only `/registry/…` records. -/
theorem snapshot_roundtrip_not_byte_equal :
    facadePut [] "/registry/foo" "bar" = Except.ok snapState1 ∧
    facadePut snapState1 "/zzz" "x" = Except.ok snapState2 ∧
    MeshKV.iterPrefixPairs (restoreKV (snapshotKV snapState2) []) "/"
      ≠ MeshKV.iterPrefixPairs snapState2 "/" := by
  refine ⟨rfl, rfl, ?_⟩
  decide

/-- C7 (amended). For a state whose writes all target `/registry/…` keys,
snapshot then restore into the empty backend reproduces the full ordered
iteration byte for byte. -/
theorem snapshot_roundtrip_registry (db : List (String × String))
    (hsorted : MeshKV.sortedKeys db)
    (hreg : ∀ e ∈ db, underRegistry e.1 = true) :
    MeshKV.iterPrefixPairs (restoreKV (snapshotKV db) []) "/"
      = MeshKV.iterPrefixPairs db "/" := by
  have hsnap : snapshotKV db = db := by
    rw [snapshotKV]
    exact List.filter_eq_self.mpr hreg
  have hres : restoreKV db [] = db := by
    rw [restoreKV]
    have h2 := foldl_putValue_sorted db []
      (by simpa [MeshKV.sortedKeys] using hsorted)
    simpa using h2
  rw [hsnap, hres]

/-- Witness for `snapshot_roundtrip_registry` at a one-record state. -/
theorem snapshot_roundtrip_registry_witness :
    MeshKV.iterPrefixPairs (restoreKV (snapshotKV snapState1) []) "/"
      = MeshKV.iterPrefixPairs snapState1 "/" :=
  snapshot_roundtrip_registry snapState1 (by decide) (by decide)

end Snapshots

namespace StoreOptions

/-- C8, as written, is false: `NewRaftOptions` sets the startup timeout to
`time.Minute`, one minute, not the three minutes the claim states (the
flag-binding default is three minutes, but the constructor's is one). -/
theorem newRaftOptions_startup_not_three_minutes :
    NewRaftOptions.StartupTimeout = timeMinute ∧ timeMinute ≠ 3 * timeMinute := by
  decide

/-- C8 (amended). The defaults of `NewRaftOptions`: heartbeat 3s,
election 3s, commit 15s, apply 10s, leader-lease 3s, snapshot interval
5m, snapshot threshold 50, connection 3s, startup 1m, shutdown 1m. -/
theorem newRaftOptions_defaults :
    NewRaftOptions.HeartbeatTimeout = 3 * timeSecond ∧
    NewRaftOptions.ElectionTimeout = 3 * timeSecond ∧
    NewRaftOptions.CommitTimeout = 15 * timeSecond ∧
    NewRaftOptions.ApplyTimeout = 10 * timeSecond ∧
    NewRaftOptions.LeaderLeaseTimeout = 3 * timeSecond ∧
    NewRaftOptions.SnapshotInterval = 5 * timeMinute ∧
    NewRaftOptions.SnapshotThreshold = 50 ∧
    NewRaftOptions.ConnectionTimeout = 3 * timeSecond ∧
    NewRaftOptions.StartupTimeout = 1 * timeMinute ∧
    NewRaftOptions.ShutdownTimeout = 1 * timeMinute := by
  decide

end StoreOptions

namespace Svcutil

theorem mem_insertVisited_self (id : String) (vis : List String) :
    id ∈ insertVisited id vis := by
  unfold insertVisited
  split
  · assumption
  · exact List.mem_cons_self _ _

theorem mem_insertVisited_of_mem (id : String) (vis : List String) (u : String)
    (h : u ∈ vis) : u ∈ insertVisited id vis := by
  unfold insertVisited
  split
  · exact h
  · exact List.mem_cons_of_mem _ h

theorem eq_or_mem_of_mem_insertVisited (id : String) (vis : List String) (u : String)
    (h : u ∈ insertVisited id vis) : u = id ∨ u ∈ vis := by
  unfold insertVisited at h
  split at h
  · exact Or.inr h
  · exact List.mem_cons.mp h

/-- The loop never drops anything from the visited set. -/
theorem edgeLoop_vis_mono (recur : String → List String → List String × List String)
    (vertex : String → Node) (thisPeer : String) (dadj : List String)
    (hrec : ∀ t vis u, u ∈ vis → u ∈ (recur t vis).2) :
    ∀ ts vis u, u ∈ vis → u ∈ (edgeLoop recur vertex thisPeer dadj ts vis).2 := by
  intro ts
  induction ts with
  | nil =>
    intro vis u hu
    simpa [edgeLoop] using hu
  | cons t ts ih =>
    intro vis u hu
    by_cases h1 : t = thisPeer
    · simpa [edgeLoop, h1] using ih vis u hu
    · by_cases h2 : t ∈ dadj
      · simpa [edgeLoop, h1, h2] using ih vis u hu
      · by_cases h3 : t ∈ vis
        · simpa [edgeLoop, h1, h2, h3] using ih vis u hu
        · have hstep : u ∈ (recur t (insertVisited t vis)).2 :=
            hrec t _ u (mem_insertVisited_of_mem _ _ _ hu)
          simpa [edgeLoop, h1, h2, h3] using
            ih (recur t (insertVisited t vis)).2 u hstep

/-- `edgeGo` never drops anything from the visited set. -/
theorem edgeGo_vis_mono (vertex : String → Node) (adj : AdjMap) (thisPeer : String) :
    ∀ fuel nid vis u, u ∈ vis → u ∈ (edgeGo vertex adj thisPeer fuel nid vis).2 := by
  intro fuel
  induction fuel with
  | zero =>
    intro nid vis u hu
    simpa [edgeGo] using hu
  | succ fuel ih =>
    intro nid vis u hu
    rw [edgeGo]
    exact edgeLoop_vis_mono _ _ _ _ (fun t v w hw => ih t v w hw) _ _ u
      (mem_insertVisited_of_mem _ _ _ hu)

/-- Every target the loop newly marks visited has its addresses collected. -/
theorem edgeLoop_new_addrs (recur : String → List String → List String × List String)
    (vertex : String → Node) (thisPeer : String) (dadj : List String)
    (hrecA : ∀ t vis u, u ∈ (recur t vis).2 → u ∉ vis → u ≠ t →
        ∀ a ∈ addrStrings (vertex u), a ∈ (recur t vis).1) :
    ∀ ts vis u, u ∈ (edgeLoop recur vertex thisPeer dadj ts vis).2 → u ∉ vis →
      ∀ a ∈ addrStrings (vertex u), a ∈ (edgeLoop recur vertex thisPeer dadj ts vis).1 := by
  intro ts
  induction ts with
  | nil =>
    intro vis u hu hnu a _
    exact absurd (by simpa [edgeLoop] using hu) hnu
  | cons t ts ih =>
    intro vis u hu hnu a ha
    by_cases h1 : t = thisPeer
    · simp only [edgeLoop, h1, if_true] at hu ⊢
      exact ih vis u (by simpa using hu) hnu a ha
    · by_cases h2 : t ∈ dadj
      · simp only [edgeLoop, h1, h2, if_false, if_true, ite_true, ite_false] at hu ⊢
        exact ih vis u (by simpa [h1, h2] using hu) hnu a ha
      · by_cases h3 : t ∈ vis
        · simp only [edgeLoop, h1, h2, h3] at hu ⊢
          exact ih vis u (by simpa [h1, h2, h3] using hu) hnu a ha
        · simp only [edgeLoop, h1, h2, h3, if_false, ite_false, ite_true] at hu ⊢
          by_cases hr1 : u ∈ (recur t (insertVisited t vis)).2
          · by_cases hiv : u ∈ insertVisited t vis
            · rcases eq_or_mem_of_mem_insertVisited _ _ _ hiv with rfl | hv
              · refine List.mem_append_left _ (List.mem_append_left _ ha)
              · exact absurd hv hnu
            · have hne : u ≠ t := by
                intro h
                exact hiv (h ▸ mem_insertVisited_self t vis)
              have := hrecA t (insertVisited t vis) u hr1 hiv hne a ha
              exact List.mem_append_left _ (List.mem_append_right _ this)
          · have hu2 : u ∈ (edgeLoop recur vertex thisPeer dadj ts
                (recur t (insertVisited t vis)).2).2 := by simpa [h1, h2, h3] using hu
            have := ih (recur t (insertVisited t vis)).2 u hu2 hr1 a ha
            exact List.mem_append_right _ this

/-- Every node `edgeGo` newly visits, other than the entry node, has its
addresses collected in the output. -/
theorem edgeGo_new_addrs (vertex : String → Node) (adj : AdjMap) (thisPeer : String) :
    ∀ fuel nid vis u, u ∈ (edgeGo vertex adj thisPeer fuel nid vis).2 → u ∉ vis →
      u ≠ nid → ∀ a ∈ addrStrings (vertex u),
        a ∈ (edgeGo vertex adj thisPeer fuel nid vis).1 := by
  intro fuel
  induction fuel with
  | zero =>
    intro nid vis u hu hnu _ a _
    exact absurd (by simpa [edgeGo] using hu) hnu
  | succ fuel ih =>
    intro nid vis u hu hnu hne a ha
    rw [edgeGo] at hu ⊢
    have hni : u ∉ insertVisited nid vis := by
      intro h
      rcases eq_or_mem_of_mem_insertVisited _ _ _ h with rfl | hv
      · exact hne rfl
      · exact hnu hv
    exact edgeLoop_new_addrs _ _ _ _
      (fun t v w hw hnw hwt b hb => ih t v w hw hnw hwt b hb)
      _ _ u hu hni a ha

/-- Targets of any row are targets of the map. -/
theorem row_subset_allTargets (adj : AdjMap) (id : String) :
    ∀ x ∈ row adj id, x ∈ allTargets adj := by
  intro x hx
  unfold row at hx
  cases hfind : adj.find? (fun e => e.1 == id) with
  | none =>
    rw [hfind] at hx
    simp at hx
  | some e =>
    rw [hfind] at hx
    have hmem : e ∈ adj := List.mem_of_find?_eq_some hfind
    exact List.mem_flatten.mpr ⟨e.2, List.mem_map.mpr ⟨e, hmem, rfl⟩, hx⟩

/-- Every IP the loop collects is an address of some node other than
thisPeer drawn from the target list. -/
theorem edgeLoop_src (recur : String → List String → List String × List String)
    (vertex : String → Node) (thisPeer : String) (dadj : List String)
    (allT : List String)
    (hrecS : ∀ t vis ip, ip ∈ (recur t vis).1 →
        ∃ u, u ≠ thisPeer ∧ u ∈ allT ∧ ip ∈ addrStrings (vertex u)) :
    ∀ ts, (∀ x ∈ ts, x ∈ allT) → ∀ vis ip,
      ip ∈ (edgeLoop recur vertex thisPeer dadj ts vis).1 →
      ∃ u, u ≠ thisPeer ∧ u ∈ allT ∧ ip ∈ addrStrings (vertex u) := by
  intro ts
  induction ts with
  | nil =>
    intro _ vis ip hip
    simp [edgeLoop] at hip
  | cons t ts ih =>
    intro hts vis ip hip
    have hts2 : ∀ x ∈ ts, x ∈ allT := fun x hx => hts x (List.mem_cons_of_mem _ hx)
    by_cases h1 : t = thisPeer
    · exact ih hts2 vis ip (by simpa [edgeLoop, h1] using hip)
    · by_cases h2 : t ∈ dadj
      · exact ih hts2 vis ip (by simpa [edgeLoop, h1, h2] using hip)
      · by_cases h3 : t ∈ vis
        · exact ih hts2 vis ip (by simpa [edgeLoop, h1, h2, h3] using hip)
        · simp only [edgeLoop, h1, h2, h3, if_false, ite_false, ite_true] at hip
          rcases List.mem_append.mp hip with hip1 | hip2
          · rcases List.mem_append.mp hip1 with hip3 | hip4
            · exact ⟨t, h1, hts t (List.mem_cons_self _ _), hip3⟩
            · exact hrecS t _ ip hip4
          · exact ih hts2 _ ip hip2

/-- Every IP `edgeGo` collects is an address of some node other than
thisPeer occurring as a target of the adjacency map. -/
theorem edgeGo_src (vertex : String → Node) (adj : AdjMap) (thisPeer : String) :
    ∀ fuel nid vis ip, ip ∈ (edgeGo vertex adj thisPeer fuel nid vis).1 →
      ∃ u, u ≠ thisPeer ∧ u ∈ allTargets adj ∧ ip ∈ addrStrings (vertex u) := by
  intro fuel
  induction fuel with
  | zero =>
    intro nid vis ip hip
    simp [edgeGo] at hip
  | succ fuel ih =>
    intro nid vis ip hip
    rw [edgeGo] at hip
    exact edgeLoop_src _ _ _ _ (allTargets adj)
      (fun t v q hq => ih t v q hq)
      _ (row_subset_allTargets adj nid) _ ip hip

/-- Membership in the dedup-append accumulator. -/
theorem mem_appendDedup (base l : List String) (a : String) :
    a ∈ appendDedup base l ↔ a ∈ base ∨ a ∈ l := by
  induction l generalizing base with
  | nil => simp [appendDedup]
  | cons x l ih =>
    have hstep : appendDedup base (x :: l)
        = appendDedup (if x ∈ base then base else base ++ [x]) l := rfl
    rw [hstep, ih]
    split_ifs with hx
    · constructor
      · intro h
        rcases h with h | h
        · exact Or.inl h
        · exact Or.inr (List.mem_cons_of_mem _ h)
      · intro h
        rcases h with h | h
        · exact Or.inl h
        · rcases List.mem_cons.mp h with rfl | h2
          · exact Or.inl hx
          · exact Or.inr h2
    · constructor
      · intro h
        rcases h with h | h
        · rcases List.mem_append.mp h with h2 | h2
          · exact Or.inl h2
          · have hax : a = x := by simpa using h2
            exact Or.inr (hax ▸ List.mem_cons_self _ _)
        · exact Or.inr (List.mem_cons_of_mem _ h)
      · intro h
        rcases h with h | h
        · exact Or.inl (List.mem_append_left _ h)
        · rcases List.mem_cons.mp h with rfl | h2
          · exact Or.inl (List.mem_append_right _ (by simp))
          · exact Or.inr h2

end Svcutil

namespace Svcutil

theorem eq_empty_of_data_nil (p : String) (h : p.data = []) : p = "" := by
  obtain ⟨d⟩ := p
  simp at h
  subst h
  rfl

theorem strHasPfx_empty_left (p : String) (hp : p ≠ "") : strHasPfx "" p = false := by
  cases hd : p.data with
  | nil => exact absurd (eq_empty_of_data_nil p hd) hp
  | cons c cs =>
    unfold strHasPfx
    rw [hd]
    rfl

/-- `find?` returns the first element satisfying the predicate. -/
theorem find?_first {α : Type} (p : α → Bool) (l1 : List α) (e : α) (l2 : List α)
    (h1 : ∀ x ∈ l1, p x = false) (he : p e = true) :
    (l1 ++ e :: l2).find? p = some e := by
  induction l1 with
  | nil => simpa using List.find?_cons_of_pos _ he
  | cons x l1 ih =>
    have hx : p x = false := h1 x (List.mem_cons_self _ _)
    rw [List.cons_append, List.find?_cons_of_neg _ (by simp [hx])]
    exact ih (fun y hy => h1 y (List.mem_cons_of_mem _ hy))

/-- C2, as written, is false: the code matches the primary endpoint as a
string prefix of the whole `ip:port` endpoint, not by host equality. On
`epNode` no endpoint's host equals `1.2.3.4`, so the claim demands the
first endpoint, yet the code returns the second, whose host `1.2.3.40`
merely extends `1.2.3.4`. -/
theorem preferredEndpoint_not_host_equality :
    preferredEndpoint epNode = "1.2.3.40:2" ∧
    preferredEndpointSpec epNode = "9.9.9.9:1" ∧
    preferredEndpoint epNode ≠ preferredEndpointSpec epNode := by
  decide

/-- C2 (amended). The preferred endpoint is the first entry of
`wireguard_endpoints` of which the nonempty `primary_endpoint` is a string
prefix; when the primary endpoint is empty or no entry matches, the first
entry; when the list is empty, the empty string. -/
theorem preferredEndpoint_prefix_rule (node : Node) :
    (∀ l1 e l2, node.WireGuardEndpoints = l1 ++ e :: l2 →
        node.PrimaryEndpoint ≠ "" →
        strHasPfx e node.PrimaryEndpoint = true →
        (∀ x ∈ l1, strHasPfx x node.PrimaryEndpoint = false) →
        preferredEndpoint node = e) ∧
    ((node.PrimaryEndpoint = "" ∨
        ∀ x ∈ node.WireGuardEndpoints, strHasPfx x node.PrimaryEndpoint = false) →
      preferredEndpoint node = node.WireGuardEndpoints.headD "") ∧
    (node.WireGuardEndpoints = [] → preferredEndpoint node = "") := by
  refine ⟨?_, ?_, ?_⟩
  · intro l1 e l2 hsplit hpe hpre hl1
    have hfind : node.WireGuardEndpoints.find?
        (fun x => strHasPfx x node.PrimaryEndpoint) = some e := by
      rw [hsplit]
      exact find?_first _ l1 e l2 hl1 hpre
    have hpm : primaryMatch node = e := by
      unfold primaryMatch
      rw [if_pos hpe, hfind]
    have hene : e ≠ "" := by
      intro he0
      rw [he0, strHasPfx_empty_left _ hpe] at hpre
      exact Bool.false_ne_true hpre
    unfold preferredEndpoint
    simp only [hpm]
    rw [if_neg (fun h => hene h.1)]
  · intro hcase
    have hpm : primaryMatch node = "" := by
      unfold primaryMatch
      rcases hcase with hpe | hall
      · rw [if_neg (fun h => h hpe)]
      · by_cases hpe : node.PrimaryEndpoint ≠ ""
        · rw [if_pos hpe]
          have hnone : node.WireGuardEndpoints.find?
              (fun x => strHasPfx x node.PrimaryEndpoint) = none := by
            rw [List.find?_eq_none]
            intro x hx
            simp [hall x hx]
          rw [hnone]
        · rw [if_neg hpe]
    unfold preferredEndpoint
    simp only [hpm]
    by_cases heps : node.WireGuardEndpoints = []
    · rw [if_neg (fun h => h.2 heps), heps]
      rfl
    · rw [if_pos ⟨trivial, heps⟩]
  · intro heps
    have hpm : primaryMatch node = "" := by
      unfold primaryMatch
      by_cases hpe : node.PrimaryEndpoint ≠ ""
      · rw [if_pos hpe, heps]
        rfl
      · rw [if_neg hpe]
    unfold preferredEndpoint
    simp only [hpm]
    rw [if_neg (fun h => h.2 heps)]

/-- Witness for `preferredEndpoint_prefix_rule`: a first entry whose host
matches the primary endpoint is selected. -/
theorem preferredEndpoint_prefix_rule_witness :
    preferredEndpoint
        { ID := "W", PrimaryEndpoint := "1.2.3.4"
          WireGuardEndpoints := ["1.2.3.4:51820", "5.6.7.8:1"] }
      = "1.2.3.4:51820" :=
  (preferredEndpoint_prefix_rule
      { ID := "W", PrimaryEndpoint := "1.2.3.4"
        WireGuardEndpoints := ["1.2.3.4:51820", "5.6.7.8:1"] }).1
    [] "1.2.3.4:51820" ["5.6.7.8:1"] rfl (by decide) (by decide) (by decide)

/-- C3, as written, is false: the traversal visits N3, which advertises
the route CIDR `10.10.0.0/16`, yet that CIDR is absent from the computed
allowed IPs — the recursion only ever adds private addresses, never route
CIDRs. -/
theorem allowedIPs_route_cidr_missing :
    "N3" ∈ (recurseEdgeAllowedIPs 3 linVertex linAdj "N1" (linVertex "N2")).2 ∧
    "10.10.0.0/16" ∈ linRouteCidrs "N3" ∧
    "10.10.0.0/16" ∉ recurseAllowedIPs 3 linVertex linAdj "N1" (linVertex "N2") := by
  decide

/-- C3 (amended). For every node the transitive traversal visits other
than the starting neighbor, its private IPv4/IPv6 addresses are included
in the computed allowed IPs; route CIDRs are not consulted. -/
theorem allowedIPs_visited_addresses_included
    (fuel : Nat) (vertex : String → Node) (adj : AdjMap) (thisPeer : String) (node : Node)
    (t : String) (ht : t ∈ (recurseEdgeAllowedIPs fuel vertex adj thisPeer node).2)
    (hne : t ≠ node.ID) :
    ∀ a ∈ addrStrings (vertex t), a ∈ recurseAllowedIPs fuel vertex adj thisPeer node := by
  intro a ha
  have h1 : a ∈ (recurseEdgeAllowedIPs fuel vertex adj thisPeer node).1 := by
    unfold recurseEdgeAllowedIPs at ht ⊢
    exact edgeGo_new_addrs vertex adj thisPeer fuel node.ID [] t ht (by simp) hne a ha
  unfold recurseAllowedIPs
  exact (mem_appendDedup _ _ _).mpr (Or.inr h1)

/-- Witness for `allowedIPs_visited_addresses_included` on the linear
mesh: N3 is visited and its IPv4 address appears in N1's view of N2. -/
theorem allowedIPs_visited_addresses_included_witness :
    "172.16.0.3/32" ∈ recurseAllowedIPs 3 linVertex linAdj "N1" (linVertex "N2") :=
  allowedIPs_visited_addresses_included 3 linVertex linAdj "N1" (linVertex "N2") "N3"
    (by decide) (by decide) "172.16.0.3/32" (by decide)

/-- C4. In the linear mesh `N1—N2—N3` with all ACLs permissive, the
allowed IPs of N1's view of N2 contain N3's private addresses; and in any
mesh whose nodes' addresses are distinct from thisNode's (the data model
makes private addresses unique), the allowed IPs computed for a neighbor
never contain thisNode's own addresses. -/
theorem allowedIPs_transitive_and_no_self
    (fuel : Nat) (vertex : String → Node) (adj : AdjMap) (thisPeer nbrId : String)
    (hbase : ∀ a ∈ addrStrings (vertex nbrId), a ∉ addrStrings (vertex thisPeer))
    (huniq : ∀ u ∈ allTargets adj, u ≠ thisPeer →
        ∀ a ∈ addrStrings (vertex u), a ∉ addrStrings (vertex thisPeer)) :
    ("172.16.0.3/32" ∈ recurseAllowedIPs 3 linVertex linAdj "N1" (linVertex "N2") ∧
      "fd00::3/128" ∈ recurseAllowedIPs 3 linVertex linAdj "N1" (linVertex "N2")) ∧
    ∀ a ∈ addrStrings (vertex thisPeer),
      a ∉ recurseAllowedIPs fuel vertex adj thisPeer (vertex nbrId) := by
  refine ⟨⟨by decide, by decide⟩, ?_⟩
  intro a ha hmem
  unfold recurseAllowedIPs recurseEdgeAllowedIPs at hmem
  rcases (mem_appendDedup _ _ _).mp hmem with hb | he
  · exact hbase a hb ha
  · obtain ⟨u, hune, humem, hua⟩ := edgeGo_src vertex adj thisPeer fuel (vertex nbrId).ID [] a he
    exact huniq u humem hune a hua ha

/-- Witness for `allowedIPs_transitive_and_no_self` on the linear mesh:
N3's address is present and N1's own address is absent in N1's view of
N2. -/
theorem allowedIPs_transitive_and_no_self_witness :
    "172.16.0.3/32" ∈ recurseAllowedIPs 3 linVertex linAdj "N1" (linVertex "N2") ∧
    "172.16.0.1/32" ∉ recurseAllowedIPs 3 linVertex linAdj "N1" (linVertex "N2") := by
  have h := allowedIPs_transitive_and_no_self 3 linVertex linAdj "N1" "N2"
    (by decide) (by decide)
  exact ⟨h.1.1, h.2 "172.16.0.1/32" (by decide)⟩

end Svcutil

namespace Networking

theorem mem_of_mem_eraseKey (row : List (String × GEdge)) (k : String) (e : String × GEdge)
    (h : e ∈ eraseKey row k) : e ∈ row :=
  List.mem_of_mem_filter h

theorem ne_of_mem_eraseKey (row : List (String × GEdge)) (k : String) (e : String × GEdge)
    (h : e ∈ eraseKey row k) : e.1 ≠ k := by
  have h2 := (List.mem_filter.mp h).2
  simpa using h2

/-- `FilterGraph`'s first loop only ever deletes from thisNode's row. -/
theorem filterStep_subset (accept : NetworkAction → Bool)
    (allowComm : MeshNode → MeshNode → Bool) (getter : String → MeshNode)
    (routes : List Route) (thisNode : MeshNode) (row : List (String × GEdge))
    (x : String) (e : String × GEdge)
    (h : e ∈ filterStep accept allowComm getter routes thisNode row x) : e ∈ row := by
  unfold filterStep at h
  split_ifs at h
  · exact h
  · exact mem_of_mem_eraseKey _ _ _ h
  · exact mem_of_mem_eraseKey _ _ _ h
  · exact h

/-- A candidate with a denied route CIDR leaves the row without its key. -/
theorem filterStep_removes (accept : NetworkAction → Bool)
    (allowComm : MeshNode → MeshNode → Bool) (getter : String → MeshNode)
    (routes : List Route) (thisNode : MeshNode) (row : List (String × GEdge))
    (x : String) (hne : x ≠ thisNode.Id)
    (hdenied : anyRouteDenied accept routes thisNode (getter x).Id = true) :
    ∀ e ∈ filterStep accept allowComm getter routes thisNode row x,
      e.1 ≠ (getter x).Id := by
  intro e he
  unfold filterStep at he
  split_ifs at he with h0 h1
  · exact absurd h0 hne
  · exact ne_of_mem_eraseKey _ _ _ he
  · exact ne_of_mem_eraseKey _ _ _ he

/-- Once a key is out of the row it never reappears during the loop. -/
theorem foldl_filterStep_keeps_out (accept : NetworkAction → Bool)
    (allowComm : MeshNode → MeshNode → Bool) (getter : String → MeshNode)
    (routes : List Route) (thisNode : MeshNode) (k : String) :
    ∀ (l : List String) (row : List (String × GEdge)),
      (∀ e ∈ row, e.1 ≠ k) →
      ∀ e ∈ l.foldl (filterStep accept allowComm getter routes thisNode) row, e.1 ≠ k := by
  intro l
  induction l with
  | nil =>
    intro row h e he
    exact h e (by simpa using he)
  | cons x l ih =>
    intro row h e he
    rw [List.foldl_cons] at he
    exact ih _ (fun d hd => h d (filterStep_subset _ _ _ _ _ _ _ _ hd)) e he

/-- Processing a denied candidate anywhere in the loop removes its key
from the row for good. -/
theorem foldl_filterStep_removes (accept : NetworkAction → Bool)
    (allowComm : MeshNode → MeshNode → Bool) (getter : String → MeshNode)
    (routes : List Route) (thisNode : MeshNode) (nodeID : String)
    (hne : nodeID ≠ thisNode.Id)
    (hdenied : anyRouteDenied accept routes thisNode (getter nodeID).Id = true) :
    ∀ (l : List String) (row : List (String × GEdge)), nodeID ∈ l →
      ∀ e ∈ l.foldl (filterStep accept allowComm getter routes thisNode) row,
        e.1 ≠ (getter nodeID).Id := by
  intro l
  induction l with
  | nil =>
    intro row h
    simp at h
  | cons x l ih =>
    intro row hmem e he
    rw [List.foldl_cons] at he
    by_cases hx : nodeID = x
    · subst hx
      exact foldl_filterStep_keeps_out accept allowComm getter routes thisNode _ l _
        (filterStep_removes accept allowComm getter routes thisNode row nodeID hne hdenied)
        e he
    · have hmem2 : nodeID ∈ l := by
        rcases List.mem_cons.mp hmem with h | h
        · exact absurd h hx
        · exact h
      exact ih _ hmem2 e he

/-- C5. If any one destination CIDR of any route advertised by a candidate
node is denied by the ACLs for traffic from thisNode, that node is removed
entirely from thisNode's row of the filtered adjacency map, whatever its
other routes or CIDRs say. -/
theorem filterGraph_denied_route_removes_peer (accept : NetworkAction → Bool)
    (allowComm : MeshNode → MeshNode → Bool) (getter : String → MeshNode)
    (routes : List Route) (fullMap : AdjacencyMap) (thisNode : MeshNode) (nodeID : String)
    (hmem : nodeID ∈ fullMap.map (fun e => e.1))
    (hne : nodeID ≠ thisNode.Id)
    (hdenied : anyRouteDenied accept routes thisNode (getter nodeID).Id = true) :
    ∀ e ∈ rowOf (FilterGraph accept allowComm getter routes fullMap thisNode) thisNode.Id,
      e.1 ≠ (getter nodeID).Id := by
  intro e he
  have hrow : rowOf (FilterGraph accept allowComm getter routes fullMap thisNode) thisNode.Id
      = filterGraphRow accept allowComm getter routes fullMap thisNode := by
    unfold rowOf FilterGraph
    rw [List.find?_cons_of_pos _ (by simp)]
  rw [hrow] at he
  unfold filterGraphRow at he
  exact foldl_filterStep_removes accept allowComm getter routes thisNode nodeID hne hdenied
    _ _ hmem e he

/-- Witness for `filterGraph_denied_route_removes_peer`: with every route
action denied, B's edge is gone from A's row. -/
theorem filterGraph_denied_route_removes_peer_witness :
    ("B", exEdge) ∉ rowOf (FilterGraph denyAll allowAll exGetter exRoutes exFullMap exThisNode)
        "A" := by
  intro h
  exact filterGraph_denied_route_removes_peer denyAll allowAll exGetter exRoutes exFullMap
    exThisNode "B" (by decide) (by decide) (by decide) ("B", exEdge) h rfl

end Networking
